import Mathlib

/-!
Verification of the clan-membership tracker bot (`bot.py`).

The development shallowly embeds the stateful core of the program:

* `fetch_clan_members_sync` (bot.py lines 53-65): HTTP fetch and best-effort
  JSON parse of the clan member list, returning `(roster?, status?)`.
* `monitor_clan` (bot.py lines 73-108): one poll cycle — fetch, diff against
  `known_members`, attempt one notification per joined/left entry (dispatch
  failures caught per entry), then overwrite `known_members`.
* `on_startup` (bot.py lines 135-143): one seeding fetch before the loop.
* `members_command` (bot.py lines 117-123): the read-only member listing.

Python dictionaries are modelled as association lists in insertion order with
unique keys; JSON values as the inductive `JValue`. Exceptions raised inside
the fetch's `try` block are modelled by `Option`: `none` marks the path on
which an exception is raised and caught by the handler at bot.py line 63.
-/

namespace CocTracker

/-- A roster, modelling a Python dict from member tag to member name
(`known_members: Dict[str, str]`, bot.py line 50) as an association list in
insertion order. Keys are unique in every dict the program builds. -/
abbrev Roster (κ ν : Type) := List (κ × ν)

/-- Python dict lookup `d[k]` / `k in d` support: first (only) binding of `k`. -/
def rosterLookup {κ ν : Type} [DecidableEq κ] (k : κ) : Roster κ ν → Option ν
  | [] => none
  | (k', v) :: rest => if k' = k then some v else rosterLookup k rest

/-- The keys of a roster, in insertion order. -/
def rosterKeys {κ ν : Type} (d : Roster κ ν) : List κ := d.map Prod.fst

/-- Python dict assignment `d[k] = v`: overwrite in place if `k` is present
(keeping its position), otherwise append at the end. -/
def dictInsert {κ ν : Type} [DecidableEq κ] (d : Roster κ ν) (k : κ) (v : ν) :
    Roster κ ν :=
  if (rosterLookup k d).isSome then
    d.map (fun p => if p.1 = k then (k, v) else p)
  else
    d ++ [(k, v)]

/-! ## JSON values

`resp.json()` (bot.py line 59) yields an arbitrary JSON document. Mutually
inductive so that decidable equality can be derived. Floating-point numbers
and Python's numeric cross-type key equality (`True == 1`) are not modelled;
no claim depends on them. `obj` fields model an already-parsed Python dict,
so keys are unique in any value produced by the JSON parser. -/

mutual
inductive JValue where
  | null
  | bool (b : Bool)
  | num (n : Int)
  | str (s : String)
  | arr (xs : JList)
  | obj (fs : JFields)
  deriving DecidableEq, Repr
inductive JList where
  | nil
  | cons (hd : JValue) (tl : JList)
  deriving DecidableEq, Repr
inductive JFields where
  | nil
  | cons (k : String) (v : JValue) (tl : JFields)
  deriving DecidableEq, Repr
end

/-- The elements of a JSON array as a Lean list. -/
def JList.toList : JList → List JValue
  | .nil => []
  | .cons h t => h :: t.toList

/-- Python `dict.get(k)` on a parsed JSON object: `some v` if bound, else
`none` (Python `None`). -/
def JFields.lookup (k : String) : JFields → Option JValue
  | .nil => none
  | .cons k' v t => if k' = k then some v else t.lookup k

/-- Whether a JSON value is hashable as a Python dict key. Lists and dicts
raise `TypeError` when used as keys; scalars and `None` are hashable. -/
def JValue.pyHashable : JValue → Bool
  | .arr _ => false
  | .obj _ => false
  | _ => true

/-! ## Roster Fetcher — `fetch_clan_members_sync` (bot.py lines 53-65) -/

/-- `item.get("tag")` with `"tag": null` and a missing `"tag"` field both
yielding Python `None`, modelled as `JValue.null`. -/
def itemTag (fs : JFields) : JValue := (fs.lookup "tag").getD .null

/-- `item.get("name")`, with the same `None` convention as `itemTag`. -/
def itemName (fs : JFields) : JValue := (fs.lookup "name").getD .null

/-- The dict comprehension `{item.get("tag"): item.get("name") for item in
items}` (bot.py line 61), processing `items` left to right into accumulator
`acc`. Returns `none` where Python raises: an item that is not a dict has no
`.get` (`AttributeError`), and an unhashable tag raises `TypeError`. Later
duplicate tags overwrite earlier ones, as in Python. -/
def buildMembers? (acc : Roster JValue JValue) :
    List JValue → Option (Roster JValue JValue)
  | [] => some acc
  | .obj fs :: rest =>
      if (itemTag fs).pyHashable then
        buildMembers? (dictInsert acc (itemTag fs) (itemName fs)) rest
      else none
  | _ :: _ => none

/-- Iterating `for item in items` over the value of `data.get("items", [])`.
An array iterates its elements; a string iterates its characters and a dict
its keys, so a non-empty string or dict puts a valueless `.get` call on the
first element (`AttributeError`, hence `none`) while empty ones yield the
empty dict; `null`, booleans and numbers are not iterable (`TypeError`). -/
def parseItems : JValue → Option (Roster JValue JValue)
  | .arr xs => buildMembers? [] xs.toList
  | .str s => if s.isEmpty then some [] else none
  | .obj .nil => some []
  | .obj (.cons _ _ _) => none
  | _ => none

/-- `data.get("items", [])` then the comprehension (bot.py lines 60-61): the
parsed body must be a JSON object (anything else has no `.get`, raising
`AttributeError`), and a missing `items` field defaults to the empty list. -/
def parseBody : JValue → Option (Roster JValue JValue)
  | .obj fs => parseItems ((fs.lookup "items").getD (.arr .nil))
  | _ => none

/-- The observable outcome of the HTTP call `requests.get(...)`: either an
exception before a response is available (network error, timeout), or a
response with a status code and a body. `body = none` marks a body on which
`resp.json()` raises (invalid JSON). -/
inductive FetchInput where
  | exn
  | resp (status : Nat) (body : Option JValue)
  deriving DecidableEq, Repr

/-- `fetch_clan_members_sync` (bot.py lines 53-65): non-200 statuses return
`(None, status_code)` before the body is parsed; any exception inside the
`try` (network, JSON decode, comprehension) is caught and returns
`(None, None)`; otherwise the parsed member dict is returned with `200`. -/
def fetch_clan_members_sync :
    FetchInput → Option (Roster JValue JValue) × Option Nat
  | .exn => (none, none)
  | .resp status body =>
    if status ≠ 200 then (none, some status)
    else
      match body with
      | none => (none, none)
      | some v =>
        match parseBody v with
        | none => (none, none)
        | some r => (some r, some 200)

/-! ## Roster Differ — bot.py lines 84-86 -/

/-- The diff computed each cycle (bot.py lines 84-86): `joined` keeps the
entries of `current` whose tag is not a key of `previous`; `left` keeps the
entries of `previous` whose tag is not a key of `current`. -/
def diffRosters {κ ν : Type} [DecidableEq κ] (previous current : Roster κ ν) :
    Roster κ ν × Roster κ ν :=
  (current.filter (fun p => (rosterLookup p.1 previous).isNone),
   previous.filter (fun p => (rosterLookup p.1 current).isNone))

/-! ## Monitor Loop — `monitor_clan` (bot.py lines 73-108) -/

/-- A notification event, carrying the member tag and name shown in the
message text (bot.py lines 90 and 98). -/
inductive Event (κ ν : Type) where
  | join (tag : κ) (name : ν)
  | leave (tag : κ) (name : ν)
  deriving DecidableEq, Repr

/-- What one iteration of the `while True` loop produces: the value of
`known_members` afterwards, the dispatches attempted (in program order:
joins first, then leaves), and the subset that was actually delivered. -/
structure CycleResult (κ ν : Type) where
  newState : Roster κ ν
  attempted : List (Event κ ν)
  delivered : List (Event κ ν)
  deriving DecidableEq, Repr

/-- One iteration of `monitor_clan`'s loop (bot.py lines 73-108) from state
`known`. `fetched` is the pair returned by `fetch_clan_members_sync`;
`dispatchOk` tells which `bot.send_message` calls succeed (a failing call
raises, is caught by the per-entry handler at bot.py lines 94/102, and the
loop moves on). A failed fetch (`members is None`) skips straight to the
sleep, leaving `known_members` untouched; otherwise every joined and left
entry is attempted and then `known_members = members` runs unconditionally. -/
def monitorClanCycle {κ ν : Type} [DecidableEq κ] (known : Roster κ ν)
    (fetched : Option (Roster κ ν) × Option Nat)
    (dispatchOk : Event κ ν → Bool) : CycleResult κ ν :=
  match fetched.1 with
  | none => ⟨known, [], []⟩
  | some members =>
    let joined := (diffRosters known members).1
    let left := (diffRosters known members).2
    let evs := joined.map (fun p => Event.join p.1 p.2)
      ++ left.map (fun p => Event.leave p.1 p.2)
    ⟨members, evs, evs.filter dispatchOk⟩

/-- `on_startup` (bot.py lines 135-143): `known_members` starts out as the
empty dict, and the seeding fetch result is stored only when it is truthy
(`if members:`), i.e. non-`None` and non-empty. No diff or notification
happens here. -/
def onStartup {κ ν : Type} (fetched : Option (Roster κ ν) × Option Nat) :
    Roster κ ν :=
  match fetched.1 with
  | some m => if m.isEmpty then [] else m
  | none => []

/-- The state after running a sequence of monitor cycles from state `init`:
each input gives that cycle's fetch outcome and dispatch oracle. -/
def runCycles {κ ν : Type} [DecidableEq κ] (init : Roster κ ν)
    (inputs : List ((Option (Roster κ ν) × Option Nat) × (Event κ ν → Bool))) :
    Roster κ ν :=
  inputs.foldl (fun s i => (monitorClanCycle s i.1 i.2).newState) init

/-- The state after the whole observable history of the process: the startup
fetch, then any number of monitor cycles. -/
def runMonitor {κ ν : Type} [DecidableEq κ]
    (startupFetch : Option (Roster κ ν) × Option Nat)
    (inputs : List ((Option (Roster κ ν) × Option Nat) × (Event κ ν → Bool))) :
    Roster κ ν :=
  runCycles (onStartup startupFetch) inputs

/-- The roster of the most recent successful fetch in a history (head =
earliest), if any fetch succeeded. -/
def lastSuccess {κ ν : Type} :
    List (Option (Roster κ ν) × Option Nat) → Option (Roster κ ν)
  | [] => none
  | f :: fs =>
    match lastSuccess fs with
    | some r => some r
    | none => f.1

/-! ## Command surface — `members_command` (bot.py lines 117-123) -/

/-- The reply sent when `known_members` is empty (bot.py line 119). -/
def noDataReply : String := "No member data yet — try again in a minute."

/-- One line of the member listing (bot.py line 121). -/
def formatMemberLine (p : String × String) : String :=
  p.2 ++ " — `" ++ p.1 ++ "`"

/-- The entries actually shown by `/members`: `sorted(known_members.items(),
key=lambda x: x[1])` then `[:200]` (bot.py lines 121-122). Python's `sorted`
and insertion sort are both stable, so they agree on association lists. -/
def membersListing (known : Roster String String) : Roster String String :=
  (List.insertionSort (fun a b => a.2 ≤ b.2) known).take 200

/-- `members_command` (bot.py lines 117-123): reads `known_members`, never
writes it. Empty dict (falsy) gets the placeholder reply; otherwise the
sorted, truncated listing. -/
def membersCommand (known : Roster String String) : String :=
  if known.isEmpty then noDataReply
  else "Clan members:\n\n"
    ++ String.intercalate "\n" ((membersListing known).map formatMemberLine)

instance : IsTotal (String × String) (fun a b => a.2 ≤ b.2) :=
  ⟨fun a b => le_total a.2 b.2⟩

instance : IsTrans (String × String) (fun a b => a.2 ≤ b.2) :=
  ⟨fun _ _ _ h h' => le_trans h h'⟩

/-! ## Sample JSON documents used to instantiate theorems -/

/-- A well-formed member item `{"tag": "#A", "name": "Alice"}`. -/
def sampleItem : JFields := .cons "tag" (.str "#A") (.cons "name" (.str "Alice") .nil)

/-- The one-element items array `[{"tag": "#A", "name": "Alice"}]`. -/
def sampleItems : JList := .cons (.obj sampleItem) .nil

/-- The body `{"items": [{"tag": "#A", "name": "Alice"}]}`. -/
def sampleBody : JValue := .obj (.cons "items" (.arr sampleItems) .nil)

/-- A body whose items array contains the malformed (non-object) item `5`:
`{"items": [5]}`. -/
def malformedItemBody : JValue := .obj (.cons "items" (.arr (.cons (.num 5) .nil)) .nil)

/-- A body whose single item lacks the `tag` field: `{"items": [{"name": "Bob"}]}`. -/
def taglessItemBody : JValue :=
  .obj (.cons "items" (.arr (.cons (.obj (.cons "name" (.str "Bob") .nil)) .nil)) .nil)

/-! ## Association-list lemmas -/

theorem mem_rosterKeys_of_mem {κ ν : Type} {d : Roster κ ν} {k : κ} {v : ν}
    (h : (k, v) ∈ d) : k ∈ rosterKeys d :=
  List.mem_map_of_mem Prod.fst h

theorem rosterLookup_isSome_of_mem {κ ν : Type} [DecidableEq κ]
    {d : Roster κ ν} {k : κ} {v : ν} (h : (k, v) ∈ d) :
    (rosterLookup k d).isSome = true := by
  induction d with
  | nil => simp at h
  | cons p rest ih =>
    obtain ⟨k', v'⟩ := p
    rcases List.mem_cons.mp h with h | h
    · rw [Prod.mk.injEq] at h
      obtain ⟨rfl, rfl⟩ := h
      simp [rosterLookup]
    · by_cases hk : k' = k
      · simp [rosterLookup, hk]
      · simpa [rosterLookup, hk] using ih h

theorem rosterLookup_eq_none_iff {κ ν : Type} [DecidableEq κ]
    {d : Roster κ ν} {k : κ} :
    rosterLookup k d = none ↔ k ∉ rosterKeys d := by
  induction d with
  | nil => simp [rosterLookup, rosterKeys]
  | cons p rest ih =>
    obtain ⟨k', v'⟩ := p
    by_cases hk : k' = k
    · simp [rosterLookup, hk, rosterKeys]
    · simpa [rosterLookup, hk, rosterKeys, Ne.symm hk] using ih

theorem mem_of_rosterLookup_eq_some {κ ν : Type} [DecidableEq κ]
    {d : Roster κ ν} {k : κ} {v : ν} (h : rosterLookup k d = some v) :
    (k, v) ∈ d := by
  induction d with
  | nil => simp [rosterLookup] at h
  | cons p rest ih =>
    obtain ⟨k', v'⟩ := p
    by_cases hk : k' = k
    · subst hk
      simp [rosterLookup] at h
      subst h
      exact List.mem_cons_self _ _
    · simp only [rosterLookup, if_neg hk] at h
      exact List.mem_cons_of_mem _ (ih h)

theorem rosterLookup_eq_some_iff {κ ν : Type} [DecidableEq κ]
    {d : Roster κ ν} (hnd : (rosterKeys d).Nodup) {k : κ} {v : ν} :
    rosterLookup k d = some v ↔ (k, v) ∈ d := by
  constructor
  · exact mem_of_rosterLookup_eq_some
  · intro h
    induction d with
    | nil => simp at h
    | cons p rest ih =>
      obtain ⟨k', v'⟩ := p
      simp only [rosterKeys, List.map_cons, List.nodup_cons] at hnd
      rcases List.mem_cons.mp h with h | h
      · rw [Prod.mk.injEq] at h
        obtain ⟨rfl, rfl⟩ := h
        simp [rosterLookup]
      · have hk : k' ≠ k := by
          rintro rfl
          exact hnd.1 (mem_rosterKeys_of_mem h)
        simpa [rosterLookup, hk] using ih hnd.2 h

/-! ## Monitor-loop lemmas -/

theorem onStartup_eq_getD {κ ν : Type} (f : Option (Roster κ ν) × Option Nat) :
    onStartup f = f.1.getD [] := by
  obtain ⟨mo, st⟩ := f
  cases mo with
  | none => rfl
  | some m =>
    simp only [onStartup, Option.getD_some]
    by_cases hm : m.isEmpty
    · rw [if_pos hm, List.isEmpty_iff.mp hm]
    · rw [if_neg hm]

theorem monitorClanCycle_none {κ ν : Type} [DecidableEq κ]
    (known : Roster κ ν) (st : Option Nat) (ok : Event κ ν → Bool) :
    monitorClanCycle known (none, st) ok = ⟨known, [], []⟩ := rfl

theorem runCycles_eq_lastSuccess {κ ν : Type} [DecidableEq κ]
    (init : Roster κ ν)
    (inputs : List ((Option (Roster κ ν) × Option Nat) × (Event κ ν → Bool))) :
    runCycles init inputs = (lastSuccess (inputs.map Prod.fst)).getD init := by
  induction inputs generalizing init with
  | nil => rfl
  | cons i rest ih =>
    rw [runCycles, List.foldl_cons]
    have step : List.foldl
        (fun s p => (monitorClanCycle s p.1 p.2).newState)
        ((monitorClanCycle init i.1 i.2).newState) rest
        = runCycles ((monitorClanCycle init i.1 i.2).newState) rest := rfl
    rw [step, ih]
    simp only [List.map_cons, lastSuccess]
    cases h : lastSuccess (rest.map Prod.fst) with
    | some r => rfl
    | none =>
      obtain ⟨⟨mo, st⟩, ok⟩ := i
      cases mo with
      | none => rfl
      | some m => rfl

/-- Claim C1: outside an in-flight cycle the monitor state equals exactly the
roster of the most recent successful fetch across the whole history (startup
fetch included), or the empty roster when no fetch has succeeded; and a cycle
whose fetch failed returns the previous state bit-for-bit unchanged, with no
notification attempted, before sleeping and retrying. -/
theorem monitor_state_tracks_last_successful_fetch :
    (∀ (startupFetch : Option (Roster String String) × Option Nat)
      (inputs : List ((Option (Roster String String) × Option Nat)
        × (Event String String → Bool))),
      runMonitor startupFetch inputs
        = (lastSuccess (startupFetch :: inputs.map Prod.fst)).getD [])
    ∧ ∀ (known : Roster String String) (st : Option Nat)
        (ok : Event String String → Bool),
        monitorClanCycle known (none, st) ok = ⟨known, [], []⟩ := by
  constructor
  · intro sf inputs
    rw [runMonitor, runCycles_eq_lastSuccess, onStartup_eq_getD]
    simp only [lastSuccess]
    cases h : lastSuccess (inputs.map Prod.fst) with
    | some r => rfl
    | none => rfl
  · intro known st ok
    rfl

/-- Claim C5: notification dispatch failure is isolated per entry — for a
cycle with successful fetch, the list of attempted dispatches does not depend
on which dispatches fail, it covers exactly the joined entries (as join
events) and the left entries (as leave events), and the new state is the
fetched roster no matter how many dispatches fail. -/
theorem notification_failures_isolated :
    ∀ (known members : Roster String String) (st : Option Nat)
      (ok ok' : Event String String → Bool),
      (monitorClanCycle known (some members, st) ok).attempted
        = (monitorClanCycle known (some members, st) ok').attempted
      ∧ (monitorClanCycle known (some members, st) ok).newState = members
      ∧ ∀ t n,
        (Event.join t n ∈ (monitorClanCycle known (some members, st) ok).attempted
          ↔ (t, n) ∈ (diffRosters known members).1)
        ∧ (Event.leave t n ∈ (monitorClanCycle known (some members, st) ok).attempted
          ↔ (t, n) ∈ (diffRosters known members).2) := by
  intro known members st ok ok'
  refine ⟨rfl, rfl, ?_⟩
  intro t n
  constructor
  · simp [monitorClanCycle, List.mem_append, List.mem_map]
  · simp [monitorClanCycle, List.mem_append, List.mem_map]

/-- Claim C7: for all rosters `A` and `B`, the joined and left parts of the
diff have disjoint key sets, and diffing a roster against itself yields two
empty rosters. -/
theorem diff_disjoint_and_diff_self_empty :
    (∀ (A B : Roster String String) (t : String),
      t ∈ rosterKeys (diffRosters A B).1 → t ∉ rosterKeys (diffRosters A B).2)
    ∧ ∀ A : Roster String String, diffRosters A A = ([], []) := by
  constructor
  · intro A B t hj hl
    simp only [diffRosters, rosterKeys, List.mem_map] at hj hl
    obtain ⟨⟨tj, nj⟩, hjmem, rfl⟩ := hj
    obtain ⟨⟨tl, nl⟩, hlmem, htl⟩ := hl
    rw [List.mem_filter] at hjmem hlmem
    have h2 : tl = tj := htl
    have hnone : rosterLookup tj A = none :=
      Option.isNone_iff_eq_none.mp hjmem.2
    have hmem : (tj, nl) ∈ A := h2 ▸ hlmem.1
    have hsome := rosterLookup_isSome_of_mem hmem
    rw [hnone] at hsome
    simp at hsome
  · intro A
    have key : A.filter (fun p => (rosterLookup p.1 A).isNone) = [] := by
      rw [List.filter_eq_nil_iff]
      intro p hp h
      have hs := rosterLookup_isSome_of_mem (d := A) (k := p.1) (v := p.2) hp
      rw [Option.isNone_iff_eq_none] at h
      rw [h] at hs
      simp at hs
    rw [diffRosters, Prod.mk.injEq]
    exact ⟨key, key⟩

/-- Witness for C7 at concrete rosters: the key "B" joins and therefore does
not appear among the left keys. -/
theorem diff_disjoint_witness :
    "B" ∉ rosterKeys (diffRosters [("A", "Alice")] [("B", "Bob")]).2 :=
  diff_disjoint_and_diff_self_empty.1 [("A", "Alice")] [("B", "Bob")] "B"
    (by decide)

/-- Claim C10: with the empty roster as state, the members command replies
with the fixed placeholder text and sends no member listing. -/
theorem members_command_empty_placeholder :
    membersCommand ([] : Roster String String) = noDataReply
    ∧ noDataReply = "No member data yet — try again in a minute." :=
  ⟨rfl, rfl⟩

/-- Claim C2: the diff is exactly set difference on keys — an entry is in
joined iff its tag maps to its name in `current` and is absent from
`previous`, and in left iff its tag maps to its name in `previous` and is
absent from `current` (rosters with unique keys, as Python dicts are). -/
theorem diff_joined_left_characterization :
    ∀ (previous current : Roster String String),
      (rosterKeys previous).Nodup → (rosterKeys current).Nodup →
      ∀ t n,
        ((t, n) ∈ (diffRosters previous current).1
          ↔ rosterLookup t current = some n ∧ rosterLookup t previous = none)
        ∧ ((t, n) ∈ (diffRosters previous current).2
          ↔ rosterLookup t previous = some n ∧ rosterLookup t current = none) := by
  intro previous current hp hc t n
  have h1 : (diffRosters previous current).1
      = current.filter (fun p => (rosterLookup p.1 previous).isNone) := rfl
  have h2 : (diffRosters previous current).2
      = previous.filter (fun p => (rosterLookup p.1 current).isNone) := rfl
  constructor
  · rw [h1, List.mem_filter]
    constructor
    · rintro ⟨hm, hn⟩
      exact ⟨(rosterLookup_eq_some_iff hc).mpr hm,
        Option.isNone_iff_eq_none.mp hn⟩
    · rintro ⟨hs, hn⟩
      exact ⟨mem_of_rosterLookup_eq_some hs, by simp [hn]⟩
  · rw [h2, List.mem_filter]
    constructor
    · rintro ⟨hm, hn⟩
      exact ⟨(rosterLookup_eq_some_iff hp).mpr hm,
        Option.isNone_iff_eq_none.mp hn⟩
    · rintro ⟨hs, hn⟩
      exact ⟨mem_of_rosterLookup_eq_some hs, by simp [hn]⟩

/-- Witness for C2 at the spec's end-to-end scenario: previous
`{A: Alice, B: Bob}`, current `{B: Bob, C: Cara}`, entry `(C, Cara)`. -/
theorem diff_characterization_witness :
    ((("C", "Cara") ∈ (diffRosters [("A", "Alice"), ("B", "Bob")]
        [("B", "Bob"), ("C", "Cara")]).1
      ↔ rosterLookup "C" [("B", "Bob"), ("C", "Cara")] = some "Cara"
        ∧ rosterLookup "C" [("A", "Alice"), ("B", "Bob")] = none)
    ∧ (("C", "Cara") ∈ (diffRosters [("A", "Alice"), ("B", "Bob")]
        [("B", "Bob"), ("C", "Cara")]).2
      ↔ rosterLookup "C" [("A", "Alice"), ("B", "Bob")] = some "Cara"
        ∧ rosterLookup "C" [("B", "Bob"), ("C", "Cara")] = none)) :=
  diff_joined_left_characterization _ _ (by decide) (by decide) "C" "Cara"

/-- Claim C6: when the startup fetch succeeds, the state is exactly its
result (no diff, no notification — `onStartup` emits no events by
construction), so the first regular cycle's joined set can only contain tags
absent from the startup roster, never the members already present. -/
theorem startup_seeding :
    ∀ (m cur : Roster String String) (st : Option Nat),
      onStartup (some m, st) = m
      ∧ ∀ t n, (t, n) ∈ (diffRosters m cur).1 → rosterLookup t m = none := by
  intro m cur st
  constructor
  · rw [onStartup_eq_getD]
    rfl
  · intro t n h
    have h1 : (diffRosters m cur).1
        = cur.filter (fun p => (rosterLookup p.1 m).isNone) := rfl
    rw [h1, List.mem_filter] at h
    exact Option.isNone_iff_eq_none.mp h.2

/-- Witness for C6: state seeded with `{A: Alice}`; the member `(B, Bob)` of
the first cycle's joined set is indeed absent from the baseline. -/
theorem startup_seeding_witness :
    onStartup (some [("A", "Alice")], some 200) = [("A", "Alice")]
    ∧ rosterLookup "B" [("A", "Alice")] = (none : Option String) :=
  ⟨(startup_seeding [("A", "Alice")] [("A", "Alice"), ("B", "Bob")]
      (some 200)).1,
   (startup_seeding [("A", "Alice")] [("A", "Alice"), ("B", "Bob")]
      (some 200)).2 "B" "Bob" (by decide)⟩

/-- Claim C8: for a non-empty state the members reply lists at most 200
entries, sorted by display name ascending, and the command is a pure read of
the state: the reply is computed from the listing alone. -/
theorem members_listing_truncated_sorted :
    ∀ known : Roster String String, known ≠ [] →
      (membersListing known).length ≤ 200
      ∧ List.Sorted (fun a b : String × String => a.2 ≤ b.2)
          (membersListing known)
      ∧ membersCommand known
        = "Clan members:\n\n" ++ String.intercalate "\n"
            ((membersListing known).map formatMemberLine) := by
  intro known hne
  refine ⟨?_, ?_, ?_⟩
  · rw [membersListing, List.length_take]
    exact Nat.min_le_left _ _
  · exact List.Pairwise.sublist (List.take_sublist _ _)
      (List.sorted_insertionSort _ known)
  · have h : known.isEmpty = false := by
      cases known with
      | nil => exact absurd rfl hne
      | cons a l => rfl
    simp [membersCommand, h]

/-- Witness for C8 at a concrete two-member state. -/
theorem members_listing_witness :
    (([("B", "bob"), ("A", "alice")] : Roster String String) ≠ [])
    ∧ (membersListing [("B", "bob"), ("A", "alice")]).length ≤ 200
    ∧ List.Sorted (fun a b : String × String => a.2 ≤ b.2)
        (membersListing [("B", "bob"), ("A", "alice")])
    ∧ membersCommand [("B", "bob"), ("A", "alice")]
      = "Clan members:\n\n" ++ String.intercalate "\n"
          ((membersListing [("B", "bob"), ("A", "alice")]).map
            formatMemberLine) :=
  ⟨by decide, members_listing_truncated_sorted _ (by decide)⟩

/-! ## Lemmas about `dictInsert` and `buildMembers?` -/

theorem rosterLookup_append {κ ν : Type} [DecidableEq κ]
    (d e : Roster κ ν) (k : κ) :
    rosterLookup k (d ++ e)
      = match rosterLookup k d with
        | some v => some v
        | none => rosterLookup k e := by
  induction d with
  | nil => rfl
  | cons p rest ih =>
    obtain ⟨k', v'⟩ := p
    by_cases hk : k' = k
    · simp [rosterLookup, hk]
    · simpa [rosterLookup, hk] using ih

theorem rosterLookup_cons {κ ν : Type} [DecidableEq κ]
    (a : κ) (b : ν) (l : Roster κ ν) (k : κ) :
    rosterLookup k ((a, b) :: l) = if a = k then some b else rosterLookup k l :=
  rfl

theorem rosterLookup_overwrite {κ ν : Type} [DecidableEq κ]
    (d : Roster κ ν) (k' : κ) (v : ν) (k : κ) :
    rosterLookup k (d.map (fun p => if p.1 = k' then (k', v) else p))
      = if k = k' then (rosterLookup k' d).map (fun _ => v)
        else rosterLookup k d := by
  induction d with
  | nil =>
    by_cases hk : k = k'
    · rw [if_pos hk]; rfl
    · rw [if_neg hk]; rfl
  | cons p rest ih =>
    obtain ⟨a, b⟩ := p
    have hmap : List.map (fun p => if p.1 = k' then (k', v) else p)
        ((a, b) :: rest)
        = (if a = k' then (k', v) else (a, b))
          :: List.map (fun p => if p.1 = k' then (k', v) else p) rest := rfl
    rw [hmap]
    by_cases hak : a = k'
    · subst hak
      rw [if_pos rfl, rosterLookup_cons]
      by_cases hkk : k = a
      · subst hkk
        rw [if_pos rfl, if_pos rfl, rosterLookup_cons, if_pos rfl]
        rfl
      · rw [if_neg (fun h => hkk h.symm), if_neg hkk, ih, if_neg hkk,
          rosterLookup_cons, if_neg (fun h => hkk h.symm)]
    · rw [if_neg hak, rosterLookup_cons]
      by_cases hkk : a = k
      · subst hkk
        have hk : ¬a = k' := hak
        rw [if_pos rfl, if_neg hk, rosterLookup_cons, if_pos rfl]
      · rw [if_neg hkk, ih]
        by_cases hk : k = k'
        · rw [if_pos hk, if_pos hk, rosterLookup_cons, if_neg hak]
        · rw [if_neg hk, if_neg hk, rosterLookup_cons, if_neg hkk]

theorem rosterLookup_dictInsert {κ ν : Type} [DecidableEq κ]
    (d : Roster κ ν) (k' : κ) (v : ν) (k : κ) :
    rosterLookup k (dictInsert d k' v)
      = if k = k' then some v else rosterLookup k d := by
  rw [dictInsert]
  by_cases hs : (rosterLookup k' d).isSome = true
  · rw [if_pos hs, rosterLookup_overwrite]
    by_cases hk : k = k'
    · rw [if_pos hk, if_pos hk]
      obtain ⟨w, hw⟩ := Option.isSome_iff_exists.mp hs
      rw [hw]
      rfl
    · rw [if_neg hk, if_neg hk]
  · rw [if_neg hs, rosterLookup_append]
    by_cases hk : k = k'
    · subst hk
      rw [Bool.not_eq_true, Option.not_isSome, Option.isNone_iff_eq_none] at hs
      rw [hs]
      simp [rosterLookup]
    · rw [if_neg hk]
      cases hl : rosterLookup k d with
      | some w => rfl
      | none => simp [rosterLookup, Ne.symm hk]

theorem mem_dictInsert {κ ν : Type} [DecidableEq κ]
    {d : Roster κ ν} {k' : κ} {v' : ν} {k : κ} {v : ν}
    (h : (k, v) ∈ dictInsert d k' v') :
    (k, v) ∈ d ∨ (k = k' ∧ v = v') := by
  rw [dictInsert] at h
  by_cases hs : (rosterLookup k' d).isSome = true
  · rw [if_pos hs] at h
    obtain ⟨p, hp, he⟩ := List.mem_map.mp h
    by_cases hpk : p.1 = k'
    · rw [if_pos hpk] at he
      rw [Prod.mk.injEq] at he
      exact Or.inr ⟨he.1.symm, he.2.symm⟩
    · rw [if_neg hpk] at he
      exact Or.inl (he ▸ hp)
  · rw [if_neg hs] at h
    rcases List.mem_append.mp h with h | h
    · exact Or.inl h
    · rw [List.mem_singleton, Prod.mk.injEq] at h
      exact Or.inr h

theorem buildMembers?_isSome :
    ∀ (l : List JValue) (acc : Roster JValue JValue),
      (∀ it ∈ l, ∃ g, it = JValue.obj g ∧ (itemTag g).pyHashable = true) →
      (buildMembers? acc l).isSome = true := by
  intro l
  induction l with
  | nil => intro acc h; rfl
  | cons it rest ih =>
    intro acc h
    obtain ⟨g, rfl, hg⟩ := h it (List.mem_cons_self _ _)
    rw [buildMembers?, if_pos hg]
    exact ih _ (fun x hx => h x (List.mem_cons_of_mem _ hx))

theorem buildMembers?_spec :
    ∀ (l : List JValue) (acc r : Roster JValue JValue),
      buildMembers? acc l = some r →
      (∀ k, (rosterLookup k acc).isSome = true →
        (rosterLookup k r).isSome = true)
      ∧ (∀ g, JValue.obj g ∈ l → (rosterLookup (itemTag g) r).isSome = true)
      ∧ ∀ k v, (k, v) ∈ r →
          (k, v) ∈ acc
          ∨ ∃ g, JValue.obj g ∈ l ∧ itemTag g = k ∧ itemName g = v := by
  intro l
  induction l with
  | nil =>
    intro acc r h
    have hra : acc = r := by simpa [buildMembers?] using h
    subst hra
    exact ⟨fun k hk => hk, fun g hg => absurd hg (by simp),
      fun k v hm => Or.inl hm⟩
  | cons it rest ih =>
    intro acc r h
    cases it with
    | obj fs =>
      rw [buildMembers?] at h
      by_cases hg : (itemTag fs).pyHashable = true
      · rw [if_pos hg] at h
        obtain ⟨ha, hb, hc⟩ := ih _ _ h
        refine ⟨?_, ?_, ?_⟩
        · intro k hk
          apply ha
          rw [rosterLookup_dictInsert]
          by_cases hkk : k = itemTag fs
          · rw [if_pos hkk]; rfl
          · rw [if_neg hkk]; exact hk
        · intro g hgm
          rcases List.mem_cons.mp hgm with he | hm
          · injection he with he'
            subst he'
            apply ha
            rw [rosterLookup_dictInsert, if_pos rfl]
            rfl
          · exact hb g hm
        · intro k v hm
          rcases hc k v hm with hacc | ⟨g, hgm, ht, hn⟩
          · rcases mem_dictInsert hacc with h1 | ⟨rfl, rfl⟩
            · exact Or.inl h1
            · exact Or.inr ⟨fs, List.mem_cons_self _ _, rfl, rfl⟩
          · exact Or.inr ⟨g, List.mem_cons_of_mem _ hgm, ht, hn⟩
      · rw [if_neg hg] at h
        cases h
    | null => cases h
    | bool b => cases h
    | num n => cases h
    | str s => cases h
    | arr xs => cases h

/-- Counterexample to Claim C3 as stated: on an HTTP-success response whose
items array contains the malformed item `5`, the fetch does not return a
roster at all — the comprehension raises and the handler returns
`(None, None)`, so a malformed item is fatal to the whole fetch; and an item
with a missing tag is not omitted but included under the null key. -/
theorem fetch_malformed_counterexample :
    fetch_clan_members_sync (.resp 200 (some malformedItemBody)) = (none, none)
    ∧ fetch_clan_members_sync (.resp 200 (some taglessItemBody))
      = (some [(JValue.null, JValue.str "Bob")], some 200) := by
  constructor
  · rfl
  · rfl

/-- Claim C3 (amended): on an HTTP-success response whose body is a JSON
object with an `items` array all of whose elements are objects with hashable
tag values, the fetch returns a roster and the success indicator; every
item's tag (null when the field is missing) appears in the roster, and every
roster entry is some item's tag and name. A non-object item instead makes
the whole fetch fail (see the counterexample). -/
theorem fetch_parses_wellformed_items :
    ∀ (fs : JFields) (xs : JList),
      JFields.lookup "items" fs = some (JValue.arr xs) →
      (∀ it ∈ xs.toList, ∃ g, it = JValue.obj g ∧ (itemTag g).pyHashable = true) →
      ∃ r, fetch_clan_members_sync (.resp 200 (some (.obj fs)))
          = (some r, some 200)
        ∧ (∀ g, JValue.obj g ∈ xs.toList →
            (rosterLookup (itemTag g) r).isSome = true)
        ∧ ∀ k v, (k, v) ∈ r →
            ∃ g, JValue.obj g ∈ xs.toList ∧ itemTag g = k ∧ itemName g = v := by
  intro fs xs hitems hwf
  have hsome := buildMembers?_isSome xs.toList [] hwf
  obtain ⟨r, hr⟩ := Option.isSome_iff_exists.mp hsome
  refine ⟨r, ?_, ?_, ?_⟩
  · simp [fetch_clan_members_sync, parseBody, hitems, parseItems, hr]
  · exact (buildMembers?_spec xs.toList [] r hr).2.1
  · intro k v hm
    rcases (buildMembers?_spec xs.toList [] r hr).2.2 k v hm with h | h
    · simp at h
    · exact h

/-- Witness for the amended C3 at the body
`{"items": [{"tag": "#A", "name": "Alice"}]}`. -/
theorem fetch_parses_witness :
    ∃ r, fetch_clan_members_sync (.resp 200 (some (.obj (.cons "items"
        (.arr sampleItems) .nil)))) = (some r, some 200)
      ∧ (∀ g, JValue.obj g ∈ sampleItems.toList →
          (rosterLookup (itemTag g) r).isSome = true)
      ∧ ∀ k v, (k, v) ∈ r →
          ∃ g, JValue.obj g ∈ sampleItems.toList
            ∧ itemTag g = k ∧ itemName g = v :=
  fetch_parses_wellformed_items (.cons "items" (.arr sampleItems) .nil)
    sampleItems rfl
    (by
      intro it hit
      simp [sampleItems, JList.toList] at hit
      subst hit
      exact ⟨sampleItem, rfl, rfl⟩)

/-- Claim C4: the fetch result is classified exhaustively — non-success
status returns `(None, status)` with no retry, an exception (network failure,
JSON decode failure, or a parse error in the comprehension) returns
`(None, None)`, and the only remaining shape is `(roster, 200)`, so the
caller may treat a `None` first component uniformly as failure. -/
theorem fetch_outcome_classification :
    (∀ (s : Nat) (b : Option JValue), s ≠ 200 →
      fetch_clan_members_sync (.resp s b) = (none, some s))
    ∧ fetch_clan_members_sync .exn = (none, none)
    ∧ fetch_clan_members_sync (.resp 200 none) = (none, none)
    ∧ (∀ v, parseBody v = none →
        fetch_clan_members_sync (.resp 200 (some v)) = (none, none))
    ∧ ∀ input, (fetch_clan_members_sync input).1 = none
        ∨ ∃ r, fetch_clan_members_sync input = (some r, some 200) := by
  refine ⟨?_, rfl, by decide, ?_, ?_⟩
  · intro s b hs
    simp [fetch_clan_members_sync, hs]
  · intro v hv
    simp [fetch_clan_members_sync, hv]
  · intro input
    cases input with
    | exn => exact Or.inl rfl
    | resp s b =>
      by_cases hs : s = 200
      · subst hs
        cases b with
        | none => exact Or.inl (by decide)
        | some v =>
          cases hv : parseBody v with
          | none => exact Or.inl (by simp [fetch_clan_members_sync, hv])
          | some r => exact Or.inr ⟨r, by simp [fetch_clan_members_sync, hv]⟩
      · exact Or.inl (by simp [fetch_clan_members_sync, hs])

/-- Witness for C4: a 404 response and an un-parseable 200 response. -/
theorem fetch_outcome_witness :
    fetch_clan_members_sync (.resp 404 none) = (none, some 404)
    ∧ fetch_clan_members_sync (.resp 200 (some (JValue.num 3)))
      = (none, none) :=
  ⟨fetch_outcome_classification.1 404 none (by decide),
   fetch_outcome_classification.2.2.2.1 (JValue.num 3) rfl⟩

/-- Claim C9: a 200 response whose body is an object lacking the `items`
field (or with an empty items array) yields the empty roster with success;
a cycle consuming it reports every previous member as left, attempts one
leave notification per previous member (and no join), and replaces the state
with the empty roster. -/
theorem empty_items_resets_state :
    ∀ (fs : JFields) (known : Roster JValue JValue)
      (ok : Event JValue JValue → Bool),
      (JFields.lookup "items" fs = none
        ∨ JFields.lookup "items" fs = some (JValue.arr .nil)) →
      fetch_clan_members_sync (.resp 200 (some (.obj fs))) = (some [], some 200)
      ∧ (monitorClanCycle known
          (fetch_clan_members_sync (.resp 200 (some (.obj fs)))) ok).newState
        = []
      ∧ (monitorClanCycle known
          (fetch_clan_members_sync (.resp 200 (some (.obj fs)))) ok).attempted
        = known.map (fun p => Event.leave p.1 p.2) := by
  intro fs known ok h
  have hf : fetch_clan_members_sync (.resp 200 (some (.obj fs)))
      = (some [], some 200) := by
    rcases h with h | h
    · simp [fetch_clan_members_sync, parseBody, h, parseItems, buildMembers?,
        JList.toList]
    · simp [fetch_clan_members_sync, parseBody, h, parseItems, buildMembers?,
        JList.toList]
  have hdiff : diffRosters known ([] : Roster JValue JValue) = ([], known) := by
    rw [diffRosters, Prod.mk.injEq]
    exact ⟨rfl, List.filter_eq_self.mpr (fun a _ => rfl)⟩
  rw [hf]
  refine ⟨rfl, rfl, ?_⟩
  simp [monitorClanCycle, hdiff]

/-- Witness for C9: body `{}` against previous state `{#A: Alice}`. -/
theorem empty_items_witness :
    fetch_clan_members_sync (.resp 200 (some (.obj .nil))) = (some [], some 200)
    ∧ (monitorClanCycle [(JValue.str "#A", JValue.str "Alice")]
        (fetch_clan_members_sync (.resp 200 (some (.obj .nil))))
        (fun _ => true)).newState = []
    ∧ (monitorClanCycle [(JValue.str "#A", JValue.str "Alice")]
        (fetch_clan_members_sync (.resp 200 (some (.obj .nil))))
        (fun _ => true)).attempted
      = [Event.leave (JValue.str "#A") (JValue.str "Alice")] :=
  empty_items_resets_state .nil [(JValue.str "#A", JValue.str "Alice")]
    (fun _ => true) (Or.inl rfl)

end CocTracker
